import Mathlib

/-!
Shallow embedding of the Game of Life engine (`src/lib.rs`) and proofs about
the claims of its specification.

Modelling conventions:
* `usize` is modelled as `Nat` and `i32` as `Int`.  Every quantity the program
  manipulates (grid dimensions read from a pattern file, cell indices below
  those dimensions, the eight neighbor offsets, the generation counter) stays
  far below the machine-width bounds, where Rust's `rem_euclid` on `i32`
  agrees with Lean's Euclidean `Int.emod` (`%`).
* `Vec<Vec<Cell>>` is modelled as `List (List Cell)`; the panicking
  out-of-bounds index `cells[row][col]` is modelled with `List.getD` and the
  default `Cell.Dead`; all uses in the claims are in bounds, and the
  rectangular-shape invariant of the source struct is the predicate
  `CellBoard.WF`.
* `Game::tick` inserts one action per slot into a `HashMap` and then drains it
  in unspecified order.  The model applies the actions in row-major insertion
  order (`Game.tick_actions`); `Game.tick_with` applies an arbitrary order and
  the order-independence claim is proved about it.
* `Game::randomize` draws from the process-global RNG; the model replaces the
  RNG by an explicit boolean oracle argument.
* File I/O of `CellBoard::from_file` is replaced by the list of lines of the
  file (`CellBoard.from_lines`); the parsing loop is transcribed faithfully,
  including the order of the row-length check, the empty-row check and the
  per-character scan, and with `line.len()` modelled as the UTF-8 byte length
  `String.utf8ByteSize` (for rows of recognized cell characters, which are
  ASCII, this coincides with the character count).
-/

namespace GameOfLife

/-- Cell state, from `cell::Cell` in the source. -/
inductive Cell where
  | Dead : Cell
  | Alive : Cell
deriving DecidableEq, Repr

/-- Pending state assignment, from `cell::Action` in the source. -/
inductive Action where
  | Die : Action
  | Live : Action
deriving DecidableEq, Repr

/-- Grid position `cell::Slot(row, col)` from the source. -/
abbrev Slot := Nat × Nat

/-- Parse-error detail, from `game::FormatErrorVariant` in the source. -/
inductive FormatErrorVariant where
  | RowLengthMismatch : Nat → FormatErrorVariant
  | UnrecognizedCharacter : Char → FormatErrorVariant
  | EmptyRow : FormatErrorVariant
deriving DecidableEq, Repr

/-- Load-error type, from `game::CellBoardCreationError` in the source. -/
inductive CellBoardCreationError where
  | FileError : CellBoardCreationError
  | FormatError : FormatErrorVariant → CellBoardCreationError
deriving DecidableEq, Repr

/-- `utils::add_mod_n`: `((lhs as i32) + rhs).rem_euclid(modulo as i32)` cast
back to `usize`.  `rem_euclid` on in-range values is the Euclidean modulo,
Lean's `Int.emod`. -/
def add_mod_n (lhs : Nat) (rhs : Int) (modulo : Nat) : Nat :=
  (((lhs : Int) + rhs) % (modulo : Int)).toNat

/-- `game::CellBoard`: a height, a width and the cell matrix. -/
structure CellBoard where
  height : Nat
  width : Nat
  cells : List (List Cell)
deriving DecidableEq, Repr

/-- The rectangular-shape invariant the source maintains for every board it
constructs: `height` rows, each of length `width`. -/
def CellBoard.WF (b : CellBoard) : Prop :=
  b.cells.length = b.height ∧ ∀ row ∈ b.cells, row.length = b.width

instance (b : CellBoard) : Decidable b.WF := by
  unfold CellBoard.WF; infer_instance

/-- `CellBoard::new`: all cells dead. -/
def CellBoard.new (height width : Nat) : CellBoard :=
  ⟨height, width, List.replicate height (List.replicate width Cell.Dead)⟩

/-- `Cell::apply`: overwrite a cell with the state an action names. -/
def Cell.apply (c : Cell) (a : Action) : Cell :=
  match a with
  | Action.Die => Cell.Dead
  | Action.Live => Cell.Alive

/-- `CellBoard::get_slot`: read `cells[row][col]`. -/
def CellBoard.get_slot (b : CellBoard) (slot : Slot) : Cell :=
  (b.cells.getD slot.1 []).getD slot.2 Cell.Dead

/-- `CellBoard::set_slot`: write `cells[row][col] = cell`. -/
def CellBoard.set_slot (b : CellBoard) (slot : Slot) (cell : Cell) : CellBoard :=
  { b with cells := b.cells.set slot.1 ((b.cells.getD slot.1 []).set slot.2 cell) }

/-- `CellBoard::apply_to_slot`: `cells[row][col].apply(action)`. -/
def CellBoard.apply_to_slot (b : CellBoard) (slot : Slot) (action : Action) : CellBoard :=
  b.set_slot slot ((b.get_slot slot).apply action)

/-- Parsing of the characters of one line in `CellBoard::from_file`:
`'X'` is alive, `'O'` is dead, anything else is an error carrying the first
offending character. -/
def parse_row : List Char → Except CellBoardCreationError (List Cell)
  | [] => Except.ok []
  | c :: rest =>
    match c with
    | 'X' => (parse_row rest).map (fun cells => Cell.Alive :: cells)
    | 'O' => (parse_row rest).map (fun cells => Cell.Dead :: cells)
    | _ => Except.error (CellBoardCreationError.FormatError
        (FormatErrorVariant.UnrecognizedCharacter c))

/-- The loop of `CellBoard::from_file` over the remaining lines, carrying the
running line index `i`, the established row length and the accumulated rows.
The checks appear in the source's order: length mismatch first, then the
empty-row check (both only once a row length is established), then the
character scan.  Rust's `line.len()` is the UTF-8 byte length of the line,
`String.utf8ByteSize` here (not the character count `String.length`): the
ragged-row and empty-row checks compare byte lengths, while the cell scan
walks characters. -/
def from_lines_aux (i : Nat) (row_length : Option Nat) (row_vec : List (List Cell)) :
    List String → Except CellBoardCreationError CellBoard
  | [] => Except.ok ⟨row_vec.length, row_length.getD 0, row_vec⟩
  | line :: rest =>
    let line_length := line.utf8ByteSize
    match row_length with
    | none =>
      match parse_row line.data with
      | Except.error e => Except.error e
      | Except.ok col_vec =>
          from_lines_aux (i + 1) (some line_length) (row_vec ++ [col_vec]) rest
    | some length =>
      if line_length ≠ length then
        Except.error (CellBoardCreationError.FormatError
          (FormatErrorVariant.RowLengthMismatch i))
      else if length = 0 then
        Except.error (CellBoardCreationError.FormatError FormatErrorVariant.EmptyRow)
      else
        match parse_row line.data with
        | Except.error e => Except.error e
        | Except.ok col_vec =>
            from_lines_aux (i + 1) (some length) (row_vec ++ [col_vec]) rest

/-- `CellBoard::from_file`, with the file replaced by its list of lines. -/
def CellBoard.from_lines (lines : List String) : Except CellBoardCreationError CellBoard :=
  from_lines_aux 0 none [] lines

/-- `game::Game`: generation counter plus board. -/
structure Game where
  generation : Nat
  cell_board : CellBoard
deriving DecidableEq, Repr

/-- `Game::new`. -/
def Game.new (height width : Nat) : Game :=
  ⟨0, CellBoard.new height width⟩

/-- `Game::from_file`, with the file replaced by its list of lines. -/
def Game.from_lines (lines : List String) : Except CellBoardCreationError Game :=
  match CellBoard.from_lines lines with
  | Except.error e => Except.error e
  | Except.ok cell_board => Except.ok ⟨0, cell_board⟩

/-- `Game::randomize`, with the global RNG replaced by the oracle `rnd`. -/
def Game.randomize (g : Game) (rnd : Nat → Nat → Bool) : Game :=
  ⟨g.generation,
    ((List.range g.cell_board.height).flatMap fun row =>
        (List.range g.cell_board.width).map fun col => ((row, col) : Slot)).foldl
      (fun b slot =>
        b.set_slot slot (if rnd slot.1 slot.2 then Cell.Alive else Cell.Dead))
      g.cell_board⟩

/-- The neighbor offsets array of `Game::get_action`, in source order. -/
def neighbor_offsets : List (Int × Int) :=
  [(0, 1), (-1, 1), (-1, 0), (-1, -1), (0, -1), (1, -1), (1, 0), (1, 1)]

/-- The test `if let Cell::Alive = ...` of the neighbor loop. -/
def Cell.is_alive : Cell → Bool
  | Cell.Alive => true
  | Cell.Dead => false

/-- The live-neighbor count accumulated by the loop in `Game::get_action`:
each of the eight offsets is wrapped through `add_mod_n` (rows by the board
height, columns by the board width) and counted when alive. -/
def Game.live_neighbors (g : Game) (slot : Slot) : Nat :=
  neighbor_offsets.countP fun d =>
    (g.cell_board.get_slot
        (add_mod_n slot.1 d.1 g.cell_board.height,
         add_mod_n slot.2 d.2 g.cell_board.width)).is_alive

/-- `Game::get_action`: the rule match of the source (`2..=3 => Live` for an
alive cell, `3 => Live` for a dead cell, `Die` otherwise). -/
def Game.get_action (g : Game) (slot : Slot) : Action :=
  let n := g.live_neighbors slot
  match g.cell_board.get_slot slot with
  | Cell.Alive => if n = 2 ∨ n = 3 then Action.Live else Action.Die
  | Cell.Dead => if n = 3 then Action.Live else Action.Die

/-- The slot/action pairs `Game::tick` inserts into its `HashMap`, in the
row-major insertion order of the two nested loops. -/
def Game.tick_actions (g : Game) : List (Slot × Action) :=
  (List.range g.cell_board.height).flatMap fun row =>
    (List.range g.cell_board.width).map fun col =>
      (((row, col) : Slot), g.get_action (row, col))

/-- Applying a list of drained `(slot, action)` pairs in order. -/
def CellBoard.apply_all (b : CellBoard) (l : List (Slot × Action)) : CellBoard :=
  l.foldl (fun acc p => acc.apply_to_slot p.1 p.2) b

/-- `Game::tick` with an explicit drain order for the `HashMap` of actions. -/
def Game.tick_with (g : Game) (l : List (Slot × Action)) : Game :=
  ⟨g.generation + 1, g.cell_board.apply_all l⟩

/-- `Game::tick`: compute every action from the pre-tick board, apply them
all, increment the generation. -/
def Game.tick (g : Game) : Game :=
  g.tick_with g.tick_actions

/-- `Game::apply_action`. -/
def Game.apply_action (g : Game) (slot : Slot) (action : Action) : Game :=
  ⟨g.generation, g.cell_board.apply_to_slot slot action⟩

/-! ### List helper lemmas -/

theorem list_set_getD_self {α : Type} (l : List α) (i : Nat) (d : α) (h : i < l.length) :
    l.set i (l.getD i d) = l := by
  induction l generalizing i with
  | nil => simp at h
  | cons x xs ih =>
    cases i with
    | zero => rfl
    | succ n =>
      have hn : n < xs.length := by simpa using h
      simp only [List.getD_cons_succ]
      show x :: xs.set n (xs.getD n d) = x :: xs
      rw [ih n hn]

/-! ### Board access lemmas -/

theorem CellBoard.height_set_slot (b : CellBoard) (s : Slot) (c : Cell) :
    (b.set_slot s c).height = b.height := rfl

theorem CellBoard.width_set_slot (b : CellBoard) (s : Slot) (c : Cell) :
    (b.set_slot s c).width = b.width := rfl

theorem CellBoard.cells_length_set_slot (b : CellBoard) (s : Slot) (c : Cell) :
    (b.set_slot s c).cells.length = b.cells.length := by
  simp [CellBoard.set_slot]

theorem CellBoard.row_length_set_slot (b : CellBoard) (s : Slot) (c : Cell) (i : Nat) :
    ((b.set_slot s c).cells.getD i []).length = (b.cells.getD i []).length := by
  simp only [CellBoard.set_slot, List.getD_eq_getElem?_getD]
  by_cases h1 : i = s.1
  · subst h1
    by_cases h3 : s.1 < b.cells.length
    · rw [List.getElem?_set_self h3]
      simp [List.getD_eq_getElem?_getD]
    · rw [List.set_eq_of_length_le (by omega)]
  · rw [List.getElem?_set_ne (fun hh => h1 hh.symm)]

theorem CellBoard.get_slot_set_slot_ne (b : CellBoard) (s s' : Slot) (c : Cell)
    (h : s' ≠ s) : (b.set_slot s c).get_slot s' = b.get_slot s' := by
  obtain ⟨r, col⟩ := s
  obtain ⟨r', col'⟩ := s'
  simp only [CellBoard.get_slot, CellBoard.set_slot, List.getD_eq_getElem?_getD]
  by_cases h1 : r' = r
  · subst h1
    have h2 : col' ≠ col := by
      intro hc; exact h (by rw [hc])
    by_cases h3 : r' < b.cells.length
    · rw [List.getElem?_set_self h3]
      simp only [Option.getD_some, List.getD_eq_getElem?_getD]
      rw [List.getElem?_set_ne (fun hh => h2 hh.symm)]
    · rw [List.set_eq_of_length_le (by omega)]
  · rw [List.getElem?_set_ne (fun hh => h1 hh.symm)]

theorem CellBoard.get_slot_set_slot_self (b : CellBoard) (s : Slot) (c : Cell)
    (hr : s.1 < b.cells.length) (hc : s.2 < (b.cells.getD s.1 []).length) :
    (b.set_slot s c).get_slot s = c := by
  obtain ⟨r, col⟩ := s
  simp only [CellBoard.get_slot, CellBoard.set_slot, List.getD_eq_getElem?_getD]
  rw [List.getElem?_set_self hr]
  simp only [Option.getD_some, List.getD_eq_getElem?_getD] at hc ⊢
  rw [List.getElem?_set_self (by simpa [List.getD_eq_getElem?_getD] using hc)]
  rfl

theorem CellBoard.height_apply_to_slot (b : CellBoard) (s : Slot) (a : Action) :
    (b.apply_to_slot s a).height = b.height := rfl

theorem CellBoard.width_apply_to_slot (b : CellBoard) (s : Slot) (a : Action) :
    (b.apply_to_slot s a).width = b.width := rfl

theorem CellBoard.cells_length_apply_to_slot (b : CellBoard) (s : Slot) (a : Action) :
    (b.apply_to_slot s a).cells.length = b.cells.length :=
  b.cells_length_set_slot s _

theorem CellBoard.row_length_apply_to_slot (b : CellBoard) (s : Slot) (a : Action) (i : Nat) :
    ((b.apply_to_slot s a).cells.getD i []).length = (b.cells.getD i []).length :=
  b.row_length_set_slot s _ i

theorem CellBoard.get_slot_apply_to_slot_ne (b : CellBoard) (s s' : Slot) (a : Action)
    (h : s' ≠ s) : (b.apply_to_slot s a).get_slot s' = b.get_slot s' :=
  b.get_slot_set_slot_ne s s' _ h

theorem CellBoard.get_slot_apply_to_slot_self (b : CellBoard) (s : Slot) (a : Action)
    (hr : s.1 < b.cells.length) (hc : s.2 < (b.cells.getD s.1 []).length) :
    (b.apply_to_slot s a).get_slot s = (b.get_slot s).apply a :=
  b.get_slot_set_slot_self s _ hr hc

/-! ### Applying a whole action list -/

theorem CellBoard.apply_all_nil (b : CellBoard) : b.apply_all [] = b := rfl

theorem CellBoard.apply_all_cons (b : CellBoard) (p : Slot × Action) (l : List (Slot × Action)) :
    b.apply_all (p :: l) = (b.apply_to_slot p.1 p.2).apply_all l := rfl

theorem CellBoard.height_apply_all (b : CellBoard) (l : List (Slot × Action)) :
    (b.apply_all l).height = b.height := by
  induction l generalizing b with
  | nil => rfl
  | cons p t ih => rw [CellBoard.apply_all_cons, ih, CellBoard.height_apply_to_slot]

theorem CellBoard.width_apply_all (b : CellBoard) (l : List (Slot × Action)) :
    (b.apply_all l).width = b.width := by
  induction l generalizing b with
  | nil => rfl
  | cons p t ih => rw [CellBoard.apply_all_cons, ih, CellBoard.width_apply_to_slot]

theorem CellBoard.cells_length_apply_all (b : CellBoard) (l : List (Slot × Action)) :
    (b.apply_all l).cells.length = b.cells.length := by
  induction l generalizing b with
  | nil => rfl
  | cons p t ih => rw [CellBoard.apply_all_cons, ih, CellBoard.cells_length_apply_to_slot]

theorem CellBoard.row_length_apply_all (b : CellBoard) (l : List (Slot × Action)) (i : Nat) :
    ((b.apply_all l).cells.getD i []).length = (b.cells.getD i []).length := by
  induction l generalizing b with
  | nil => rfl
  | cons p t ih => rw [CellBoard.apply_all_cons, ih, CellBoard.row_length_apply_to_slot]

theorem CellBoard.get_slot_apply_all_not_mem (b : CellBoard) (l : List (Slot × Action))
    (s : Slot) (h : s ∉ l.map Prod.fst) : (b.apply_all l).get_slot s = b.get_slot s := by
  induction l generalizing b with
  | nil => rfl
  | cons p t ih =>
    simp only [List.map_cons, List.mem_cons, not_or] at h
    rw [CellBoard.apply_all_cons, ih _ h.2, CellBoard.get_slot_apply_to_slot_ne _ _ _ _ h.1]

theorem CellBoard.get_slot_apply_all_mem (b : CellBoard) (l : List (Slot × Action))
    (s : Slot) (a : Action) (hnd : (l.map Prod.fst).Nodup) (hmem : (s, a) ∈ l)
    (hr : s.1 < b.cells.length) (hc : s.2 < (b.cells.getD s.1 []).length) :
    (b.apply_all l).get_slot s = (b.get_slot s).apply a := by
  induction l generalizing b with
  | nil => simp at hmem
  | cons p t ih =>
    simp only [List.map_cons, List.nodup_cons] at hnd
    rw [CellBoard.apply_all_cons]
    rcases List.mem_cons.1 hmem with heq | htail
    · have hs : p.1 = s := by rw [← heq]
      have hnotin : s ∉ t.map Prod.fst := by rw [← hs]; exact hnd.1
      rw [CellBoard.get_slot_apply_all_not_mem _ _ _ hnotin]
      have ha : p.2 = a := by rw [← heq]
      rw [← hs, ← ha]
      exact b.get_slot_apply_to_slot_self p.1 p.2 (hs ▸ hr) (hs ▸ hc)
    · have hne : s ≠ p.1 := by
        intro hh
        exact hnd.1 (hh ▸ List.mem_map_of_mem Prod.fst htail)
      rw [ih _ hnd.2 htail]
      · rw [CellBoard.get_slot_apply_to_slot_ne _ _ _ _ hne]
      · rw [CellBoard.cells_length_apply_to_slot]; exact hr
      · rw [CellBoard.row_length_apply_to_slot]; exact hc

/-! ### Facts about the action list of a tick -/

theorem slot_grid_nodup (xs ys : List Nat) (hx : xs.Nodup) (hy : ys.Nodup) :
    (xs.flatMap fun r => ys.map fun c => ((r, c) : Slot)).Nodup := by
  induction xs with
  | nil => simp
  | cons x t ih =>
    rw [List.flatMap_cons]
    rcases List.nodup_cons.1 hx with ⟨hxt, hxnd⟩
    refine List.Nodup.append (hy.map fun c1 c2 hcc => by simpa using hcc) (ih hxnd) ?_
    intro p hp1 hp2
    rcases List.mem_map.1 hp1 with ⟨c1, _, rfl⟩
    rcases List.mem_flatMap.1 hp2 with ⟨r2, hr2, hmem2⟩
    rcases List.mem_map.1 hmem2 with ⟨c2, _, heq⟩
    have hrx : r2 = x := congrArg Prod.fst heq
    exact hxt (hrx ▸ hr2)

theorem Game.tick_actions_keys (g : Game) :
    g.tick_actions.map Prod.fst =
      (List.range g.cell_board.height).flatMap fun row =>
        (List.range g.cell_board.width).map fun col => ((row, col) : Slot) := by
  simp [Game.tick_actions, List.map_flatMap, List.map_map, Function.comp_def]

theorem Game.tick_actions_keys_nodup (g : Game) : (g.tick_actions.map Prod.fst).Nodup := by
  rw [Game.tick_actions_keys]
  exact slot_grid_nodup _ _ (List.nodup_range _) (List.nodup_range _)

theorem Game.mem_tick_actions (g : Game) (r c : Nat) (hr : r < g.cell_board.height)
    (hc : c < g.cell_board.width) :
    (((r, c) : Slot), g.get_action (r, c)) ∈ g.tick_actions := by
  unfold Game.tick_actions
  exact List.mem_flatMap.2 ⟨r, List.mem_range.2 hr,
    List.mem_map.2 ⟨c, List.mem_range.2 hc, rfl⟩⟩

/-! ### Transport of the shape invariant -/

theorem CellBoard.row_len_of_WF {b : CellBoard} (h : b.WF) (i : Nat) (hi : i < b.height) :
    (b.cells.getD i []).length = b.width := by
  have hl : i < b.cells.length := by rw [h.1]; exact hi
  rw [List.getD_eq_getElem?_getD, List.getElem?_eq_getElem hl]
  exact h.2 _ (List.getElem_mem hl)

/-! ### Pointwise characterization of a tick -/

theorem Game.get_slot_tick_with (g : Game) (l : List (Slot × Action))
    (hperm : l.Perm g.tick_actions) (hWF : g.cell_board.WF) (r c : Nat)
    (hr : r < g.cell_board.height) (hc : c < g.cell_board.width) :
    (g.tick_with l).cell_board.get_slot (r, c) =
      (g.cell_board.get_slot (r, c)).apply (g.get_action (r, c)) := by
  have hnd : (l.map Prod.fst).Nodup :=
    ((hperm.map Prod.fst).nodup_iff).2 g.tick_actions_keys_nodup
  have hmem : (((r, c) : Slot), g.get_action (r, c)) ∈ l :=
    (hperm.mem_iff).2 (g.mem_tick_actions r c hr hc)
  exact CellBoard.get_slot_apply_all_mem _ _ _ _ hnd hmem
    (by rw [hWF.1]; exact hr)
    (by rw [CellBoard.row_len_of_WF hWF r hr]; exact hc)

theorem Game.get_slot_tick (g : Game) (hWF : g.cell_board.WF) (r c : Nat)
    (hr : r < g.cell_board.height) (hc : c < g.cell_board.width) :
    g.tick.cell_board.get_slot (r, c) =
      (g.cell_board.get_slot (r, c)).apply (g.get_action (r, c)) :=
  g.get_slot_tick_with g.tick_actions (List.Perm.refl _) hWF r c hr hc

/-! ### Structural equality of boards from pointwise equality -/

theorem getD_eq_getElem {α : Type} (l : List α) (i : Nat) (d : α) (h : i < l.length) :
    l.getD i d = l[i] := by
  rw [List.getD_eq_getElem?_getD, List.getElem?_eq_getElem h]
  rfl

theorem getElem?_eq_some_getD {α : Type} (l : List α) (i : Nat) (d : α) (h : i < l.length) :
    l[i]? = some (l.getD i d) := by
  rw [List.getElem?_eq_getElem h, getD_eq_getElem l i d h]

theorem CellBoard.eq_of_parts (b1 b2 : CellBoard) (hh : b1.height = b2.height)
    (hw : b1.width = b2.width) (hc : b1.cells = b2.cells) : b1 = b2 := by
  cases b1
  cases b2
  cases hh
  cases hw
  cases hc
  rfl

theorem CellBoard.eq_of_get_slot (b1 b2 : CellBoard) (hh : b1.height = b2.height)
    (hw : b1.width = b2.width) (hlen : b1.cells.length = b2.cells.length)
    (hrow : ∀ i, (b1.cells.getD i []).length = (b2.cells.getD i []).length)
    (hsl : ∀ i j, i < b1.cells.length → j < (b1.cells.getD i []).length →
      b1.get_slot (i, j) = b2.get_slot (i, j)) : b1 = b2 := by
  apply CellBoard.eq_of_parts _ _ hh hw
  apply List.ext_getElem?
  intro i
  by_cases hi : i < b1.cells.length
  · rw [getElem?_eq_some_getD _ i [] hi, getElem?_eq_some_getD _ i [] (hlen ▸ hi)]
    congr 1
    apply List.ext_getElem?
    intro j
    by_cases hj : j < (b1.cells.getD i []).length
    · rw [getElem?_eq_some_getD _ j Cell.Dead hj,
        getElem?_eq_some_getD _ j Cell.Dead ((hrow i) ▸ hj)]
      exact congrArg some (hsl i j hi hj)
    · rw [List.getElem?_eq_none (by omega), List.getElem?_eq_none (by rw [← hrow i]; omega)]
  · rw [List.getElem?_eq_none (by omega), List.getElem?_eq_none (by rw [← hlen]; omega)]

/-! ### A tick that changes nothing changes nothing structurally -/

theorem CellBoard.apply_to_slot_id (b : CellBoard) (s : Slot) (a : Action)
    (hr : s.1 < b.cells.length) (hc : s.2 < (b.cells.getD s.1 []).length)
    (hfix : (b.get_slot s).apply a = b.get_slot s) :
    b.apply_to_slot s a = b := by
  unfold CellBoard.apply_to_slot CellBoard.set_slot
  rw [hfix]
  have hrow : (b.cells.getD s.1 []).set s.2 (b.get_slot s) = b.cells.getD s.1 [] :=
    list_set_getD_self _ _ _ hc
  rw [hrow, list_set_getD_self _ _ _ hr]

theorem CellBoard.apply_all_id (b : CellBoard) (l : List (Slot × Action))
    (h : ∀ p ∈ l, p.1.1 < b.cells.length ∧ p.1.2 < (b.cells.getD p.1.1 []).length ∧
        (b.get_slot p.1).apply p.2 = b.get_slot p.1) :
    b.apply_all l = b := by
  induction l with
  | nil => rfl
  | cons p t ih =>
    rw [CellBoard.apply_all_cons]
    have hp := h p (List.mem_cons_self p t)
    rw [CellBoard.apply_to_slot_id b p.1 p.2 hp.1 hp.2.1 hp.2.2]
    exact ih fun q hq => h q (List.mem_cons_of_mem _ hq)

theorem Game.tick_fixed (g : Game) (hWF : g.cell_board.WF)
    (hfix : ∀ r c, r < g.cell_board.height → c < g.cell_board.width →
      (g.cell_board.get_slot (r, c)).apply (g.get_action (r, c)) =
        g.cell_board.get_slot (r, c)) :
    g.tick = ⟨g.generation + 1, g.cell_board⟩ := by
  unfold Game.tick Game.tick_with
  congr 1
  apply CellBoard.apply_all_id
  intro p hp
  unfold Game.tick_actions at hp
  rcases List.mem_flatMap.1 hp with ⟨r, hr, hp2⟩
  rcases List.mem_map.1 hp2 with ⟨c, hc, rfl⟩
  have hr' := List.mem_range.1 hr
  have hc' := List.mem_range.1 hc
  exact ⟨by rw [hWF.1]; exact hr',
    by rw [CellBoard.row_len_of_WF hWF r hr']; exact hc',
    hfix r c hr' hc'⟩

/-! ### The classic Life rule as the specification words it (for claim C1) -/

/-- Modelled from the spec: Euclidean wrap of an index by a dimension
("neighbor offsets wrap rows modulo the grid's height and columns modulo the
grid's width independently"). -/
def spec_wrap (i : Nat) (d : Int) (m : Nat) : Nat :=
  (((i : Int) + d) % (m : Int)).toNat

/-- Modelled from the spec: the eight toroidal neighbor offsets. -/
def spec_offsets : List (Int × Int) :=
  [(-1, -1), (-1, 0), (-1, 1), (0, -1), (0, 1), (1, -1), (1, 0), (1, 1)]

/-- Modelled from the spec: number of live cells among the eight toroidal
neighbors, read from the pre-tick snapshot board. -/
def spec_live_neighbors (b : CellBoard) (r c : Nat) : Nat :=
  spec_offsets.countP fun d =>
    (b.get_slot (spec_wrap r d.1 b.height, spec_wrap c d.2 b.width)).is_alive

/-- Modelled from the spec: the classic Life rule — an alive cell with 2 or 3
live neighbors lives, otherwise it dies; a dead cell with exactly 3 live
neighbors becomes alive, otherwise it stays dead. -/
def spec_next (b : CellBoard) (r c : Nat) : Cell :=
  match b.get_slot (r, c) with
  | Cell.Alive => if spec_live_neighbors b r c = 2 ∨ spec_live_neighbors b r c = 3
      then Cell.Alive else Cell.Dead
  | Cell.Dead => if spec_live_neighbors b r c = 3 then Cell.Alive else Cell.Dead

theorem live_neighbors_eq_spec (g : Game) (r c : Nat) :
    g.live_neighbors (r, c) = spec_live_neighbors g.cell_board r c := by
  unfold Game.live_neighbors spec_live_neighbors
  exact List.Perm.countP_eq _ (by decide)

/-- C1: for every well-formed grid and every cell position in it, the cell's
state after one `tick` equals the classic Life rule (with Euclidean toroidal
wrapping, rows by height and columns by width) applied to the pre-tick
snapshot of the board. -/
theorem C1_tick_follows_life_rule (g : Game) (hWF : g.cell_board.WF) (r c : Nat)
    (hr : r < g.cell_board.height) (hc : c < g.cell_board.width) :
    g.tick.cell_board.get_slot (r, c) = spec_next g.cell_board r c := by
  rw [Game.get_slot_tick g hWF r c hr hc]
  simp only [Game.get_action, spec_next, live_neighbors_eq_spec]
  cases g.cell_board.get_slot (r, c) <;> split_ifs <;> rfl

/-- Witness for C1 at a concrete 3-by-3 board. -/
theorem C1_tick_follows_life_rule_witness :
    (Game.tick ⟨0, ⟨3, 3, [[Cell.Dead, Cell.Alive, Cell.Dead],
                           [Cell.Dead, Cell.Alive, Cell.Dead],
                           [Cell.Dead, Cell.Dead, Cell.Dead]]⟩⟩).cell_board.get_slot (1, 1) =
      spec_next ⟨3, 3, [[Cell.Dead, Cell.Alive, Cell.Dead],
                        [Cell.Dead, Cell.Alive, Cell.Dead],
                        [Cell.Dead, Cell.Dead, Cell.Dead]]⟩ 1 1 :=
  C1_tick_follows_life_rule _ (by decide) 1 1 (by decide) (by decide)

/-- C2: for indices, offsets in `{-1, 0, 1}` and a positive modulus,
`add_mod_n` returns the mathematical Euclidean value of `(i + d) mod m`,
non-negative and below `m`; in particular `add_mod_n 0 (-1) 20 = 19` and
`add_mod_n 19 1 20 = 0`. -/
theorem C2_add_mod_n_euclidean :
    (∀ (i : Nat) (d : Int) (m : Nat), (d = -1 ∨ d = 0 ∨ d = 1) → 0 < m →
      ((add_mod_n i d m : Int) = ((i : Int) + d) % (m : Int) ∧ add_mod_n i d m < m)) ∧
    add_mod_n 0 (-1) 20 = 19 ∧ add_mod_n 19 1 20 = 0 := by
  refine ⟨fun i d m _ hm => ?_, by decide, by decide⟩
  have hm' : (0 : Int) < (m : Int) := by exact_mod_cast hm
  have h1 : ((i : Int) + d) % (m : Int) < (m : Int) := Int.emod_lt_of_pos _ hm'
  have h2 : (0 : Int) ≤ ((i : Int) + d) % (m : Int) := Int.emod_nonneg _ (by omega)
  unfold add_mod_n
  constructor
  · exact Int.toNat_of_nonneg h2
  · omega

/-- Witness for C2 at a concrete input. -/
theorem C2_add_mod_n_euclidean_witness :
    (add_mod_n 7 (-1) 5 : Int) = ((7 : Int) + (-1)) % (5 : Int) ∧ add_mod_n 7 (-1) 5 < 5 :=
  C2_add_mod_n_euclidean.1 7 (-1) 5 (Or.inl rfl) (by decide)

/-- C3: the generation counter starts at 0 at every construction
(`Game::new` and `Game::from_file`), `tick` increments it by exactly one,
and neither `apply_action` nor `randomize` changes it. -/
theorem C3_generation_counter :
    (∀ h w, (Game.new h w).generation = 0) ∧
    (∀ lines g, Game.from_lines lines = Except.ok g → g.generation = 0) ∧
    (∀ g : Game, g.tick.generation = g.generation + 1) ∧
    (∀ (g : Game) (s : Slot) (a : Action), (g.apply_action s a).generation = g.generation) ∧
    (∀ (g : Game) (rnd : Nat → Nat → Bool), (g.randomize rnd).generation = g.generation) := by
  refine ⟨fun h w => rfl, fun lines g hg => ?_, fun g => rfl, fun g s a => rfl,
    fun g rnd => rfl⟩
  unfold Game.from_lines at hg
  cases hcb : CellBoard.from_lines lines with
  | error e => rw [hcb] at hg; cases hg
  | ok b => rw [hcb] at hg; cases hg; rfl

/-- Witness for C3: a successful load has generation 0, and one tick of a
fresh game has generation 1. -/
theorem C3_generation_counter_witness :
    (⟨0, ⟨1, 1, [[Cell.Alive]]⟩⟩ : Game).generation = 0 ∧
    (Game.new 2 3).tick.generation = (Game.new 2 3).generation + 1 :=
  ⟨C3_generation_counter.2.1 ["X"] ⟨0, ⟨1, 1, [[Cell.Alive]]⟩⟩ rfl,
   C3_generation_counter.2.2.1 (Game.new 2 3)⟩

/-! ### Parsing lemmas -/

theorem parse_row_ok (cs : List Char) (h : ∀ ch ∈ cs, ch = 'X' ∨ ch = 'O') :
    ∃ row, parse_row cs = Except.ok row := by
  induction cs with
  | nil => exact ⟨[], rfl⟩
  | cons ch t ih =>
    rcases ih (fun x hx => h x (List.mem_cons_of_mem _ hx)) with ⟨row, hrow⟩
    rcases h ch (List.mem_cons_self ch t) with hX | hO
    · subst hX
      exact ⟨Cell.Alive :: row, by
        rw [show parse_row ('X' :: t) =
          (parse_row t).map (fun cells => Cell.Alive :: cells) from rfl, hrow]
        rfl⟩
    · subst hO
      exact ⟨Cell.Dead :: row, by
        rw [show parse_row ('O' :: t) =
          (parse_row t).map (fun cells => Cell.Dead :: cells) from rfl, hrow]
        rfl⟩

theorem parse_row_recognized (cs : List Char) (row : List Cell)
    (h : parse_row cs = Except.ok row) : ∀ ch ∈ cs, ch = 'X' ∨ ch = 'O' := by
  induction cs generalizing row with
  | nil => intro ch hch; cases hch
  | cons c t ih =>
    intro ch hch
    unfold parse_row at h
    split at h
    · rcases List.mem_cons.1 hch with rfl | htch
      · exact Or.inl rfl
      · cases hp : parse_row t with
        | error e => rw [hp] at h; simp [Except.map] at h
        | ok r => exact ih r hp ch htch
    · rcases List.mem_cons.1 hch with rfl | htch
      · exact Or.inr rfl
      · cases hp : parse_row t with
        | error e => rw [hp] at h; simp [Except.map] at h
        | ok r => exact ih r hp ch htch
    · cases h

theorem utf8_go_eq_length (cs : List Char)
    (h : ∀ ch ∈ cs, ch = 'X' ∨ ch = 'O') : String.utf8ByteSize.go cs = cs.length := by
  induction cs with
  | nil => rfl
  | cons c t ih =>
    have hc := h c (List.mem_cons_self c t)
    have ht := ih fun x hx => h x (List.mem_cons_of_mem _ hx)
    show String.utf8ByteSize.go t + c.utf8Size = t.length + 1
    rcases hc with rfl | rfl <;> rw [ht] <;> rfl

theorem utf8ByteSize_eq_length_of_recognized (s : String)
    (h : ∀ ch ∈ s.data, ch = 'X' ∨ ch = 'O') : s.utf8ByteSize = s.length := by
  cases s with
  | mk data => exact utf8_go_eq_length data h

theorem utf8ByteSize_eq_zero_iff (s : String) : s.utf8ByteSize = 0 ↔ s.length = 0 := by
  cases s with
  | mk data =>
    cases data with
    | nil => exact ⟨fun _ => rfl, fun _ => rfl⟩
    | cons c t =>
      constructor
      · intro h
        have h' : String.utf8ByteSize.go t + c.utf8Size = 0 := h
        have := c.utf8Size_pos
        omega
      · intro h
        have h' : t.length + 1 = 0 := h
        omega

theorem from_lines_aux_ok_some (rest : List String) :
    ∀ (i v : Nat) (acc : List (List Cell)) (b : CellBoard),
      from_lines_aux i (some v) acc rest = Except.ok b →
      b.width = v ∧ b.height = acc.length + rest.length ∧
        ∀ l ∈ rest, l.utf8ByteSize = v ∧ ∀ ch ∈ l.data, ch = 'X' ∨ ch = 'O' := by
  induction rest with
  | nil =>
    intro i v acc b hb
    simp only [from_lines_aux] at hb
    cases hb
    exact ⟨rfl, by simp, by simp⟩
  | cons line t ih =>
    intro i v acc b hb
    simp only [from_lines_aux] at hb
    by_cases hlen : line.utf8ByteSize ≠ v
    · rw [if_pos hlen] at hb; cases hb
    · rw [if_neg hlen] at hb
      push_neg at hlen
      by_cases hz : v = 0
      · rw [if_pos hz] at hb; cases hb
      · rw [if_neg hz] at hb
        cases hp : parse_row line.data with
        | error e => rw [hp] at hb; cases hb
        | ok row =>
          rw [hp] at hb
          rcases ih (i + 1) v (acc ++ [row]) b hb with ⟨hw, hh, hall⟩
          refine ⟨hw, by simp at hh ⊢; omega, ?_⟩
          intro l hl
          rcases List.mem_cons.1 hl with rfl | hlt
          · exact ⟨hlen, parse_row_recognized l.data row hp⟩
          · exact hall l hlt

theorem from_lines_ok (lines : List String) (b : CellBoard)
    (hb : CellBoard.from_lines lines = Except.ok b) :
    b.height = lines.length ∧ ∀ l ∈ lines, l.length = b.width := by
  cases lines with
  | nil =>
    simp only [CellBoard.from_lines, from_lines_aux] at hb
    cases hb
    exact ⟨rfl, by simp⟩
  | cons l0 rest =>
    simp only [CellBoard.from_lines, from_lines_aux] at hb
    cases hp : parse_row l0.data with
    | error e => rw [hp] at hb; cases hb
    | ok row0 =>
      rw [hp] at hb
      rcases from_lines_aux_ok_some rest 1 l0.utf8ByteSize [row0] b hb with ⟨hw, hh, hall⟩
      have hl0 : l0.utf8ByteSize = l0.length :=
        utf8ByteSize_eq_length_of_recognized l0 (parse_row_recognized l0.data row0 hp)
      refine ⟨by simp at hh ⊢; omega, ?_⟩
      intro l hl
      rcases List.mem_cons.1 hl with rfl | hlt
      · omega
      · rcases hall l hlt with ⟨hbs, hrecl⟩
        have hlb := utf8ByteSize_eq_length_of_recognized l hrecl
        omega

/-- C4: loading `"XOO" / "OXO" / "OOX"` succeeds with the 3-by-3 diagonal
board and generation 0; in general a successful load has height equal to the
number of parsed rows, width equal to the common row length, and
generation 0. -/
theorem C4_load_dimensions :
    (Game.from_lines ["XOO", "OXO", "OOX"] =
      Except.ok ⟨0, ⟨3, 3, [[Cell.Alive, Cell.Dead, Cell.Dead],
                            [Cell.Dead, Cell.Alive, Cell.Dead],
                            [Cell.Dead, Cell.Dead, Cell.Alive]]⟩⟩) ∧
    (∀ lines g, Game.from_lines lines = Except.ok g →
      g.generation = 0 ∧ g.cell_board.height = lines.length ∧
      ∀ l ∈ lines, l.length = g.cell_board.width) := by
  refine ⟨rfl, fun lines g hg => ?_⟩
  unfold Game.from_lines at hg
  cases hcb : CellBoard.from_lines lines with
  | error e => rw [hcb] at hg; cases hg
  | ok b =>
    rw [hcb] at hg
    cases hg
    rcases from_lines_ok lines b hcb with ⟨hh, hall⟩
    exact ⟨rfl, hh, hall⟩

/-- Witness for the general part of C4 at a concrete input. -/
theorem C4_load_dimensions_witness :
    (⟨0, ⟨2, 1, [[Cell.Alive], [Cell.Dead]]⟩⟩ : Game).generation = 0 ∧
    (⟨0, ⟨2, 1, [[Cell.Alive], [Cell.Dead]]⟩⟩ : Game).cell_board.height =
      (["X", "O"] : List String).length ∧
    ∀ l ∈ (["X", "O"] : List String),
      l.length = (⟨0, ⟨2, 1, [[Cell.Alive], [Cell.Dead]]⟩⟩ : Game).cell_board.width :=
  C4_load_dimensions.2 ["X", "O"] ⟨0, ⟨2, 1, [[Cell.Alive], [Cell.Dead]]⟩⟩ rfl

theorem from_lines_aux_mismatch (rest : List String) :
    ∀ (k v : Nat) (acc : List (List Cell)) (j : Nat), j < rest.length →
      (∀ m, m < j → (rest.getD m "").utf8ByteSize = v ∧
        ∀ ch ∈ (rest.getD m "").data, ch = 'X' ∨ ch = 'O') →
      (rest.getD j "").utf8ByteSize ≠ v → (v ≠ 0 ∨ j = 0) →
      from_lines_aux k (some v) acc rest =
        Except.error (CellBoardCreationError.FormatError
          (FormatErrorVariant.RowLengthMismatch (k + j))) := by
  induction rest with
  | nil => intro k v acc j hj _ _ _; simp at hj
  | cons line t ih =>
    intro k v acc j hj hpre hbad hnz
    cases j with
    | zero =>
      simp only [List.getD_cons_zero] at hbad
      simp only [from_lines_aux, Nat.add_zero]
      rw [if_pos hbad]
    | succ m =>
      have h0 := hpre 0 (by omega)
      simp only [List.getD_cons_zero] at h0
      have hv : v ≠ 0 := by
        rcases hnz with h | h
        · exact h
        · omega
      simp only [from_lines_aux]
      rw [if_neg (by omega), if_neg hv]
      rcases parse_row_ok line.data h0.2 with ⟨row, hrow⟩
      simp only [hrow]
      have hrec := ih (k + 1) v (acc ++ [row]) m (by simpa using hj)
        (fun m' hm' => by simpa using hpre (m' + 1) (by omega))
        (by simpa using hbad) (Or.inl hv)
      rw [hrec, show k + 1 + m = k + (m + 1) from by omega]

/-- C5 counterexample: on the input `"A" / "XX"` the second row is ragged,
yet loading reports the unrecognized character of the first row, not a
ragged-row error. -/
theorem C5_ragged_counterexample :
    CellBoard.from_lines ["A", "XX"] =
      Except.error (CellBoardCreationError.FormatError
        (FormatErrorVariant.UnrecognizedCharacter 'A')) ∧
    CellBoard.from_lines ["A", "XX"] ≠
      Except.error (CellBoardCreationError.FormatError
        (FormatErrorVariant.RowLengthMismatch 1)) := by
  refine ⟨rfl, fun h => ?_⟩
  rw [show CellBoard.from_lines ["A", "XX"] =
    Except.error (CellBoardCreationError.FormatError
      (FormatErrorVariant.UnrecognizedCharacter 'A')) from rfl] at h
  injection h with h1
  injection h1 with h2
  cases h2

/-- C5 amended: row lengths are compared as the UTF-8 byte lengths that
Rust's `String::len` returns.  If row `i` (with `i ≥ 1`) is the first row
whose byte length differs from row 0's byte length, every earlier row
consists only of the recognized characters `X` and `O`, and row 0 is
non-empty unless `i = 1`, then loading fails with a ragged-row error
carrying index `i`; in particular `"XX" / "X"` fails with a ragged-row error
at index 1. -/
theorem C5_ragged_amended (lines : List String) (i : Nat) (hi : i < lines.length)
    (h0 : 1 ≤ i)
    (hpre : ∀ j, j < i → (lines.getD j "").utf8ByteSize = (lines.getD 0 "").utf8ByteSize ∧
      ∀ ch ∈ (lines.getD j "").data, ch = 'X' ∨ ch = 'O')
    (hbad : (lines.getD i "").utf8ByteSize ≠ (lines.getD 0 "").utf8ByteSize)
    (hnz : (lines.getD 0 "").utf8ByteSize ≠ 0 ∨ i = 1) :
    CellBoard.from_lines lines =
      Except.error (CellBoardCreationError.FormatError
        (FormatErrorVariant.RowLengthMismatch i)) := by
  cases lines with
  | nil => simp at hi
  | cons l0 rest =>
    have h00 := hpre 0 h0
    simp only [List.getD_cons_zero] at h00 hbad hnz
    rcases parse_row_ok l0.data h00.2 with ⟨row0, hrow0⟩
    simp only [CellBoard.from_lines, from_lines_aux, hrow0, List.nil_append]
    have hrec := from_lines_aux_mismatch rest 1 l0.utf8ByteSize [row0] (i - 1)
      (by simp at hi; omega)
      (fun m hm => by
        have hp := hpre (m + 1) (by omega)
        simpa using hp)
      (by
        have he : (l0 :: rest).getD i "" = rest.getD (i - 1) "" := by
          cases i with
          | zero => omega
          | succ n => simp
        rw [he] at hbad
        exact hbad)
      (by
        rcases hnz with h | h
        · exact Or.inl h
        · exact Or.inr (by omega))
    rw [hrec, show 1 + (i - 1) = i from by omega]

/-- Witness for the amended C5 at the input of the claim. -/
theorem C5_ragged_amended_witness :
    CellBoard.from_lines ["XX", "X"] =
      Except.error (CellBoardCreationError.FormatError
        (FormatErrorVariant.RowLengthMismatch 1)) :=
  C5_ragged_amended ["XX", "X"] 1 (by decide) (by decide)
    (fun j hj => by
      have hj0 : j = 0 := by omega
      subst hj0
      exact ⟨rfl, by decide⟩)
    (by decide) (Or.inr rfl)

theorem from_lines_aux_blank (rest : List String) :
    ∀ (k v : Nat) (acc : List (List Cell)), v ≠ 0 → (∃ l ∈ rest, l.length = 0) →
      ∃ e, from_lines_aux k (some v) acc rest = Except.error e := by
  induction rest with
  | nil => intro k v acc _ h; simp at h
  | cons line t ih =>
    intro k v acc hv hex
    simp only [from_lines_aux]
    by_cases hlen : line.utf8ByteSize ≠ v
    · rw [if_pos hlen]
      exact ⟨_, rfl⟩
    · rw [if_neg hlen, if_neg hv]
      push_neg at hlen
      have hblank : ∃ l ∈ t, l.length = 0 := by
        rcases hex with ⟨l, hl, hl0⟩
        rcases List.mem_cons.1 hl with rfl | hlt
        · have hb0 := (utf8ByteSize_eq_zero_iff _).2 hl0
          omega
        · exact ⟨l, hlt, hl0⟩
      cases hp : parse_row line.data with
      | error e => simp only [hp]; exact ⟨e, rfl⟩
      | ok row =>
        simp only [hp]
        exact ih (k + 1) v (acc ++ [row]) hv hblank

/-- C6 counterexample: the input consisting of exactly one blank row is
accepted as a height-1, width-0 grid, where the claim demands failure. -/
theorem C6_blank_counterexample :
    CellBoard.from_lines [""] = Except.ok ⟨1, 0, [[]]⟩ := rfl

/-- C6 amended: every pattern input with at least two rows that contains a
zero-length row fails to load (the empty-row error when the established
first-row length is itself zero, a ragged-row error otherwise, and an
unrecognized-character error may preempt both); a single blank row alone is
silently accepted as a 1-by-0 grid. -/
theorem C6_blank_amended (lines : List String) (h2 : 2 ≤ lines.length)
    (hex : ∃ l ∈ lines, l.length = 0) :
    ∃ e, CellBoard.from_lines lines = Except.error e := by
  cases lines with
  | nil => simp at h2
  | cons l0 rest =>
    simp only [CellBoard.from_lines, from_lines_aux]
    cases hp : parse_row l0.data with
    | error e => exact ⟨e, rfl⟩
    | ok row0 =>
      by_cases h0 : l0.length = 0
      · cases rest with
        | nil => simp at h2
        | cons l1 t =>
          rw [(utf8ByteSize_eq_zero_iff l0).2 h0]
          simp only [from_lines_aux]
          by_cases h1 : l1.utf8ByteSize ≠ 0
          · rw [if_pos h1]
            exact ⟨_, rfl⟩
          · rw [if_neg h1, if_pos trivial]
            exact ⟨_, rfl⟩
      · have hbl : ∃ l ∈ rest, l.length = 0 := by
          rcases hex with ⟨l, hl, hl0⟩
          rcases List.mem_cons.1 hl with rfl | hlt
          · exact absurd hl0 h0
          · exact ⟨l, hlt, hl0⟩
        exact from_lines_aux_blank rest 1 l0.utf8ByteSize [row0]
          (fun hb => h0 ((utf8ByteSize_eq_zero_iff l0).1 hb)) hbl

/-- Witness for the amended C6 at a concrete input with a blank second row. -/
theorem C6_blank_amended_witness :
    ∃ e, CellBoard.from_lines ["X", ""] = Except.error e :=
  C6_blank_amended ["X", ""] (by decide) ⟨"", by simp, rfl⟩

/-! ### C7: the empty pattern is a fixed point of a tick -/

theorem CellBoard.get_slot_new (h w : Nat) (s : Slot) :
    (CellBoard.new h w).get_slot s = Cell.Dead := by
  unfold CellBoard.new CellBoard.get_slot
  simp only [List.getD_eq_getElem?_getD, List.getElem?_replicate]
  by_cases hr : s.1 < h
  · rw [if_pos hr]
    simp only [Option.getD_some, List.getElem?_replicate]
    by_cases hc : s.2 < w
    · rw [if_pos hc]; rfl
    · rw [if_neg hc]; rfl
  · rw [if_neg hr]; rfl

theorem CellBoard.new_WF (h w : Nat) : (CellBoard.new h w).WF := by
  constructor
  · simp [CellBoard.new]
  · intro row hrow
    simp only [CellBoard.new] at hrow
    rw [List.eq_of_mem_replicate hrow]
    simp [CellBoard.new]

theorem Game.get_action_dead_board (gen h w : Nat) (s : Slot) :
    Game.get_action ⟨gen, CellBoard.new h w⟩ s = Action.Die := by
  have hln : Game.live_neighbors ⟨gen, CellBoard.new h w⟩ s = 0 := by
    unfold Game.live_neighbors
    apply List.countP_eq_zero.2
    intro d _
    simp [CellBoard.get_slot_new, Cell.is_alive]
  simp only [Game.get_action, CellBoard.get_slot_new, hln]
  rfl

/-- C7: a grid constructed with all cells dead (any height and width at
least 1) stays all dead after any number of ticks. -/
theorem C7_empty_grid_fixed_point (h w : Nat) (hh : 1 ≤ h) (hw : 1 ≤ w) (n : Nat)
    (s : Slot) :
    (Game.tick^[n] (Game.new h w)).cell_board.get_slot s = Cell.Dead := by
  have key : ∀ m, Game.tick^[m] (Game.new h w) = ⟨m, CellBoard.new h w⟩ := by
    intro m
    induction m with
    | zero => rfl
    | succ k ih =>
      rw [Function.iterate_succ_apply', ih]
      rw [Game.tick_fixed ⟨k, CellBoard.new h w⟩ (CellBoard.new_WF h w)
        (fun r c _ _ => by rw [Game.get_action_dead_board, CellBoard.get_slot_new]; rfl)]
  rw [key n]
  exact CellBoard.get_slot_new h w s

/-- Witness for C7 at a concrete size and tick count. -/
theorem C7_empty_grid_fixed_point_witness :
    (Game.tick^[2] (Game.new 3 4)).cell_board.get_slot (1, 2) = Cell.Dead :=
  C7_empty_grid_fixed_point 3 4 (by decide) (by decide) 2 (1, 2)

/-! ### C9: apply_action touches exactly one cell -/

/-- C9: `apply_action` sets the addressed cell to the state the action names
and changes nothing else: all other cells, the dimensions and the generation
counter are untouched. -/
theorem C9_apply_action_frame (g : Game) (s : Slot) (a : Action) (hWF : g.cell_board.WF)
    (hr : s.1 < g.cell_board.height) (hc : s.2 < g.cell_board.width) :
    ((g.apply_action s a).cell_board.get_slot s =
      (match a with | Action.Die => Cell.Dead | Action.Live => Cell.Alive)) ∧
    (∀ s' : Slot, s' ≠ s →
      (g.apply_action s a).cell_board.get_slot s' = g.cell_board.get_slot s') ∧
    (g.apply_action s a).cell_board.height = g.cell_board.height ∧
    (g.apply_action s a).cell_board.width = g.cell_board.width ∧
    (g.apply_action s a).generation = g.generation := by
  refine ⟨?_, fun s' hs' => CellBoard.get_slot_apply_to_slot_ne _ _ _ _ hs', rfl, rfl, rfl⟩
  have hb1 : s.1 < g.cell_board.cells.length := by rw [hWF.1]; exact hr
  have hb2 : s.2 < (g.cell_board.cells.getD s.1 []).length := by
    rw [CellBoard.row_len_of_WF hWF s.1 hr]; exact hc
  rw [show (g.apply_action s a).cell_board = g.cell_board.apply_to_slot s a from rfl,
    CellBoard.get_slot_apply_to_slot_self _ _ _ hb1 hb2]
  cases a <;> rfl

/-- Witness for C9 at a concrete game. -/
theorem C9_apply_action_frame_witness :
    ((Game.apply_action ⟨5, ⟨2, 2, [[Cell.Dead, Cell.Dead], [Cell.Alive, Cell.Alive]]⟩⟩
        (0, 1) Action.Live).cell_board.get_slot (0, 1) =
      (match Action.Live with | Action.Die => Cell.Dead | Action.Live => Cell.Alive)) ∧
    (∀ s' : Slot, s' ≠ ((0, 1) : Slot) →
      (Game.apply_action ⟨5, ⟨2, 2, [[Cell.Dead, Cell.Dead], [Cell.Alive, Cell.Alive]]⟩⟩
          (0, 1) Action.Live).cell_board.get_slot s' =
        (⟨5, ⟨2, 2, [[Cell.Dead, Cell.Dead],
          [Cell.Alive, Cell.Alive]]⟩⟩ : Game).cell_board.get_slot s') ∧
    (Game.apply_action ⟨5, ⟨2, 2, [[Cell.Dead, Cell.Dead], [Cell.Alive, Cell.Alive]]⟩⟩
        (0, 1) Action.Live).cell_board.height =
      (⟨5, ⟨2, 2, [[Cell.Dead, Cell.Dead],
        [Cell.Alive, Cell.Alive]]⟩⟩ : Game).cell_board.height ∧
    (Game.apply_action ⟨5, ⟨2, 2, [[Cell.Dead, Cell.Dead], [Cell.Alive, Cell.Alive]]⟩⟩
        (0, 1) Action.Live).cell_board.width =
      (⟨5, ⟨2, 2, [[Cell.Dead, Cell.Dead],
        [Cell.Alive, Cell.Alive]]⟩⟩ : Game).cell_board.width ∧
    (Game.apply_action ⟨5, ⟨2, 2, [[Cell.Dead, Cell.Dead], [Cell.Alive, Cell.Alive]]⟩⟩
        (0, 1) Action.Live).generation =
      (⟨5, ⟨2, 2, [[Cell.Dead, Cell.Dead], [Cell.Alive, Cell.Alive]]⟩⟩ : Game).generation :=
  C9_apply_action_frame ⟨5, ⟨2, 2, [[Cell.Dead, Cell.Dead], [Cell.Alive, Cell.Alive]]⟩⟩
    (0, 1) Action.Live (by decide) (by decide) (by decide)

/-! ### C10: a tick does not depend on the drain order of the action map -/

/-- C10: `tick` is deterministic.  The model's `tick` drains the action map
in row-major order, and draining any permutation of that action list from
equal game states produces equal results, because each position receives
exactly one absolute assignment. -/
theorem C10_tick_order_independent :
    (∀ g : Game, g.tick = g.tick_with g.tick_actions) ∧
    (∀ (g1 g2 : Game) (l1 l2 : List (Slot × Action)), g1 = g2 → g1.cell_board.WF →
      l1.Perm g1.tick_actions → l2.Perm g2.tick_actions →
      g1.tick_with l1 = g2.tick_with l2) := by
  refine ⟨fun g => rfl, fun g1 g2 l1 l2 heq hWF hp1 hp2 => ?_⟩
  subst heq
  have hb : ∀ l, l.Perm g1.tick_actions →
      g1.cell_board.apply_all l = g1.cell_board.apply_all g1.tick_actions := by
    intro l hp
    apply CellBoard.eq_of_get_slot
    · rw [CellBoard.height_apply_all, CellBoard.height_apply_all]
    · rw [CellBoard.width_apply_all, CellBoard.width_apply_all]
    · rw [CellBoard.cells_length_apply_all, CellBoard.cells_length_apply_all]
    · intro i
      rw [CellBoard.row_length_apply_all, CellBoard.row_length_apply_all]
    · intro i j hi hj
      rw [CellBoard.cells_length_apply_all] at hi
      rw [CellBoard.row_length_apply_all] at hj
      have hih : i < g1.cell_board.height := by rw [← hWF.1]; exact hi
      have hjw : j < g1.cell_board.width := by
        rw [← CellBoard.row_len_of_WF hWF i hih]; exact hj
      have e1 := Game.get_slot_tick_with g1 l hp hWF i j hih hjw
      have e2 := Game.get_slot_tick_with g1 g1.tick_actions (List.Perm.refl _) hWF i j hih hjw
      exact e1.trans e2.symm
  rw [show g1.tick_with l1 = ⟨g1.generation + 1, g1.cell_board.apply_all l1⟩ from rfl,
    show g1.tick_with l2 = ⟨g1.generation + 1, g1.cell_board.apply_all l2⟩ from rfl,
    hb l1 hp1, hb l2 hp2]

/-! ### C8: a 2-by-2 block away from the borders is a still life -/

theorem add_mod_n_lt (i : Nat) (d : Int) (m : Nat) (hm : 0 < m) : add_mod_n i d m < m := by
  unfold add_mod_n
  have h1 := Int.emod_lt_of_pos ((i : Int) + d) (show (0 : Int) < (m : Int) by exact_mod_cast hm)
  have h2 := Int.emod_nonneg ((i : Int) + d) (show (m : Int) ≠ 0 by omega)
  omega

theorem add_mod_n_zero_off (r m : Nat) (hm : 0 < m) (hr : r < m) : add_mod_n r 0 m = r := by
  unfold add_mod_n
  rw [Int.add_zero, Int.emod_eq_of_lt (by omega) (by exact_mod_cast hr)]
  omega

theorem add_mod_n_one_off (r m : Nat) (hm : 0 < m) (hr : r < m) :
    add_mod_n r 1 m = if r + 1 = m then 0 else r + 1 := by
  unfold add_mod_n
  by_cases h : r + 1 = m
  · rw [if_pos h, show ((r : Int) + 1) = (m : Int) from by exact_mod_cast h, Int.emod_self]
    rfl
  · rw [if_neg h, Int.emod_eq_of_lt (by omega) (by omega)]
    omega

theorem add_mod_n_neg_one_off (r m : Nat) (hm : 0 < m) (hr : r < m) :
    add_mod_n r (-1) m = if r = 0 then m - 1 else r - 1 := by
  unfold add_mod_n
  by_cases h : r = 0
  · rw [if_pos h]
    subst h
    have h3 := Int.add_mul_emod_self_left (-1) (m : Int) 1
    rw [Int.mul_one] at h3
    have h2 : (-1 : Int) % (m : Int) = (m : Int) - 1 := by
      rw [← h3, Int.emod_eq_of_lt (by omega) (by omega)]
      omega
    rw [show ((0 : Nat) : Int) + (-1) = (-1 : Int) from by omega, h2]
    omega
  · rw [if_neg h, Int.emod_eq_of_lt (by omega) (by omega)]
    omega

theorem wrap_eq_iff (i t m : Nat) (d : Int) (hi : i < m)
    (hd : d = -1 ∨ d = 0 ∨ d = 1) (ht1 : 1 ≤ t) (ht2 : t + 2 ≤ m) :
    add_mod_n i d m = t ↔ (i : Int) + d = (t : Int) := by
  have hm : 0 < m := by omega
  rcases hd with rfl | rfl | rfl
  · rw [add_mod_n_neg_one_off i m hm hi]
    by_cases h : i = 0
    · rw [if_pos h]
      subst h
      constructor <;> intro hh <;> omega
    · rw [if_neg h]
      constructor <;> intro hh <;> omega
  · rw [add_mod_n_zero_off i m hm hi]
    constructor <;> intro hh <;> omega
  · rw [add_mod_n_one_off i m hm hi]
    by_cases h : i + 1 = m
    · rw [if_pos h]
      constructor <;> intro hh <;> omega
    · rw [if_neg h]
      constructor <;> intro hh <;> omega

theorem block_neighbor (b : CellBoard) (r0 c0 : Nat)
    (hr0 : 1 ≤ r0) (hr0h : r0 + 3 ≤ b.height) (hc0 : 1 ≤ c0) (hc0w : c0 + 3 ≤ b.width)
    (hprof : ∀ r c, r < b.height → c < b.width →
      (b.get_slot (r, c) = Cell.Alive ↔ (r = r0 ∨ r = r0 + 1) ∧ (c = c0 ∨ c = c0 + 1)))
    (r c : Nat) (hr : r < b.height) (hc : c < b.width) (dy dx : Int)
    (hdy : dy = -1 ∨ dy = 0 ∨ dy = 1) (hdx : dx = -1 ∨ dx = 0 ∨ dx = 1) :
    (b.get_slot (add_mod_n r dy b.height, add_mod_n c dx b.width)).is_alive =
      decide ((((r : Int) + dy = (r0 : Int) ∨ (r : Int) + dy = (r0 : Int) + 1) ∧
        ((c : Int) + dx = (c0 : Int) ∨ (c : Int) + dx = (c0 : Int) + 1))) := by
  have hh : 0 < b.height := by omega
  have hw : 0 < b.width := by omega
  have e1 := wrap_eq_iff r r0 b.height dy hr hdy (by omega) (by omega)
  have e2 := wrap_eq_iff r (r0 + 1) b.height dy hr hdy (by omega) (by omega)
  have e3 := wrap_eq_iff c c0 b.width dx hc hdx (by omega) (by omega)
  have e4 := wrap_eq_iff c (c0 + 1) b.width dx hc hdx (by omega) (by omega)
  push_cast at e2 e4
  have hiff := hprof _ _ (add_mod_n_lt r dy _ hh) (add_mod_n_lt c dx _ hw)
  cases hx : b.get_slot (add_mod_n r dy b.height, add_mod_n c dx b.width) with
  | Alive =>
    have hq := hiff.1 hx
    simp only [Cell.is_alive]
    exact (decide_eq_true ⟨hq.1.imp e1.1 e2.1, hq.2.imp e3.1 e4.1⟩).symm
  | Dead =>
    simp only [Cell.is_alive]
    symm
    rw [decide_eq_false_iff_not]
    intro hp
    have halive := hiff.2 ⟨hp.1.imp e1.2 e2.2, hp.2.imp e3.2 e4.2⟩
    rw [hx] at halive
    cases halive

set_option maxHeartbeats 2000000 in
theorem block_count (b : CellBoard) (r0 c0 : Nat)
    (hr0 : 1 ≤ r0) (hr0h : r0 + 3 ≤ b.height) (hc0 : 1 ≤ c0) (hc0w : c0 + 3 ≤ b.width)
    (hprof : ∀ r c, r < b.height → c < b.width →
      (b.get_slot (r, c) = Cell.Alive ↔ (r = r0 ∨ r = r0 + 1) ∧ (c = c0 ∨ c = c0 + 1)))
    (gen : Nat) (r c : Nat) (hr : r < b.height) (hc : c < b.width) :
    ((r = r0 ∨ r = r0 + 1) ∧ (c = c0 ∨ c = c0 + 1) →
      Game.live_neighbors ⟨gen, b⟩ (r, c) = 3) ∧
    (¬((r = r0 ∨ r = r0 + 1) ∧ (c = c0 ∨ c = c0 + 1)) →
      Game.live_neighbors ⟨gen, b⟩ (r, c) ≠ 3) := by
  have n1 := block_neighbor b r0 c0 hr0 hr0h hc0 hc0w hprof r c hr hc 0 1
    (by norm_num) (by norm_num)
  have n2 := block_neighbor b r0 c0 hr0 hr0h hc0 hc0w hprof r c hr hc (-1) 1
    (by norm_num) (by norm_num)
  have n3 := block_neighbor b r0 c0 hr0 hr0h hc0 hc0w hprof r c hr hc (-1) 0
    (by norm_num) (by norm_num)
  have n4 := block_neighbor b r0 c0 hr0 hr0h hc0 hc0w hprof r c hr hc (-1) (-1)
    (by norm_num) (by norm_num)
  have n5 := block_neighbor b r0 c0 hr0 hr0h hc0 hc0w hprof r c hr hc 0 (-1)
    (by norm_num) (by norm_num)
  have n6 := block_neighbor b r0 c0 hr0 hr0h hc0 hc0w hprof r c hr hc 1 (-1)
    (by norm_num) (by norm_num)
  have n7 := block_neighbor b r0 c0 hr0 hr0h hc0 hc0w hprof r c hr hc 1 0
    (by norm_num) (by norm_num)
  have n8 := block_neighbor b r0 c0 hr0 hr0h hc0 hc0w hprof r c hr hc 1 1
    (by norm_num) (by norm_num)
  unfold Game.live_neighbors neighbor_offsets
  simp only [List.countP_cons, List.countP_nil, n1, n2, n3, n4, n5, n6, n7, n8,
    decide_eq_true_eq]
  constructor
  · intro hb
    split_ifs <;> omega
  · intro hb
    split_ifs <;> omega

/-- C8: on any well-formed grid whose alive cells are exactly a 2-by-2 block
placed strictly inside the borders (which forces height and width at least
4), any number of ticks leaves the grid unchanged and only advances the
generation counter. -/
theorem C8_block_still_life (b : CellBoard) (r0 c0 : Nat) (hWF : b.WF)
    (hr0 : 1 ≤ r0) (hr0h : r0 + 3 ≤ b.height) (hc0 : 1 ≤ c0) (hc0w : c0 + 3 ≤ b.width)
    (hprof : ∀ r c, r < b.height → c < b.width →
      (b.get_slot (r, c) = Cell.Alive ↔ (r = r0 ∨ r = r0 + 1) ∧ (c = c0 ∨ c = c0 + 1)))
    (gen n : Nat) :
    Game.tick^[n] ⟨gen, b⟩ = ⟨gen + n, b⟩ := by
  induction n with
  | zero => rfl
  | succ k ih =>
    rw [Function.iterate_succ_apply', ih]
    rw [Game.tick_fixed ⟨gen + k, b⟩ hWF ?_]
    · rw [show gen + k + 1 = gen + (k + 1) from by omega]
    · intro r c hr hc
      have hcount := block_count b r0 c0 hr0 hr0h hc0 hc0w hprof (gen + k) r c hr hc
      by_cases hb : (r = r0 ∨ r = r0 + 1) ∧ (c = c0 ∨ c = c0 + 1)
      · have halive : b.get_slot (r, c) = Cell.Alive := (hprof r c hr hc).2 hb
        have h3 := hcount.1 hb
        simp only [Game.get_action, halive, h3]
        rfl
      · have hdead : b.get_slot (r, c) = Cell.Dead := by
          cases hx : b.get_slot (r, c) with
          | Dead => rfl
          | Alive => exact absurd ((hprof r c hr hc).1 hx) hb
        have h3 := hcount.2 hb
        simp only [Game.get_action, hdead]
        rw [if_neg h3]
        rfl

/-- Witness for C8: two ticks of a 4-by-4 block at position (1,1). -/
theorem C8_block_still_life_witness :
    Game.tick^[2] ⟨0, ⟨4, 4, [[Cell.Dead, Cell.Dead, Cell.Dead, Cell.Dead],
                              [Cell.Dead, Cell.Alive, Cell.Alive, Cell.Dead],
                              [Cell.Dead, Cell.Alive, Cell.Alive, Cell.Dead],
                              [Cell.Dead, Cell.Dead, Cell.Dead, Cell.Dead]]⟩⟩ =
      ⟨0 + 2, ⟨4, 4, [[Cell.Dead, Cell.Dead, Cell.Dead, Cell.Dead],
                      [Cell.Dead, Cell.Alive, Cell.Alive, Cell.Dead],
                      [Cell.Dead, Cell.Alive, Cell.Alive, Cell.Dead],
                      [Cell.Dead, Cell.Dead, Cell.Dead, Cell.Dead]]⟩⟩ :=
  C8_block_still_life _ 1 1 (by decide) (by decide) (by decide) (by decide) (by decide)
    (fun r c hr hc => by
      have hr4 : r < 4 := hr
      have hc4 : c < 4 := hc
      interval_cases r <;> interval_cases c <;> decide)
    0 2

/-- Witness for C10: draining a 2-by-2 game's actions in reverse order gives
the same result as the row-major order. -/
theorem C10_tick_order_independent_witness :
    (⟨0, ⟨2, 2, [[Cell.Alive, Cell.Dead], [Cell.Dead, Cell.Alive]]⟩⟩ : Game).tick_with
        (⟨0, ⟨2, 2, [[Cell.Alive, Cell.Dead],
          [Cell.Dead, Cell.Alive]]⟩⟩ : Game).tick_actions.reverse =
      (⟨0, ⟨2, 2, [[Cell.Alive, Cell.Dead], [Cell.Dead, Cell.Alive]]⟩⟩ : Game).tick_with
        (⟨0, ⟨2, 2, [[Cell.Alive, Cell.Dead],
          [Cell.Dead, Cell.Alive]]⟩⟩ : Game).tick_actions :=
  C10_tick_order_independent.2 _ _ _ _ rfl (by decide)
    (List.reverse_perm _) (List.Perm.refl _)

end GameOfLife
